import Mathlib

/-!
# Trusted-task bundle resolution: a shallow embedding

This file embeds the decision logic of two HyperShift developer-tooling
scripts and proves properties about it:

* `hack/tools/scripts/update_trusted_task_bundles.py` — the trusted-tasks
  ledger lookup (`TrustedTasksData.get_latest_trusted`,
  `TrustedTasksData.find_latest_version`, `TrustedTasksData.is_newer_version`),
  the per-bundle-reference analysis of `analyze_pipeline`, and the textual
  substitution of `update_pipeline_content`.
* `hack/tools/scripts/konflux_task_version_lookup.py` — the pure resolution
  core of `KonfluxTaskLookup.process_task`.

Strings are modelled as `List Char` (`Str`).  Python `int(p)` applied to
version components is modelled as parsing a non-empty string of decimal
digits (the only shape version components take in this domain); Python
list comparison (`>` on lists of ints) is modelled by `pyListGt`.
Python dicts of records are modelled as association lists in insertion
order, matching the reliance of the scripts on dict iteration order.
-/

namespace TrustedTasks

/-- Strings, modelled as lists of characters. -/
abbrev Str := List Char

/-- Parse a non-empty string of decimal digits as a natural number;
`none` otherwise.  Models `int(p)` on version components. -/
def parseNat? (s : Str) : Option Nat :=
  if s ≠ [] ∧ s.all Char.isDigit then
    some (s.foldl (fun n c => 10 * n + (c.toNat - 48)) 0)
  else none

/-- Split a string on a separator character, keeping empty pieces;
models Python `str.split(sep)` for a one-character separator.
The result is always non-empty. -/
def splitOnChar (sep : Char) : Str → List Str
  | [] => [[]]
  | x :: xs =>
    if x = sep then [] :: splitOnChar sep xs
    else
      match splitOnChar sep xs with
      | s :: ss => (x :: s) :: ss
      | [] => [[x]]

/-- Parse every component; `none` as soon as one fails.
Models the list comprehension over `int(p)` raising `ValueError`. -/
def parseParts : List Str → Option (List Nat)
  | [] => some []
  | p :: ps =>
    match parseNat? p, parseParts ps with
    | some n, some ns => some (n :: ns)
    | _, _ => none

/-- `version.split` on the dot, then `int` on each component. -/
def parseVersion (s : Str) : Option (List Nat) :=
  parseParts (splitOnChar '.' s)

/-- Python `>` on lists of integers: lexicographic, a strict prefix
is smaller. `pyListGt a b` means `a > b` in Python. -/
def pyListGt : List Nat → List Nat → Bool
  | [], _ => false
  | _ :: _, [] => true
  | a :: as', b :: bs =>
    if a > b then true
    else if a < b then false
    else pyListGt as' bs

/-- `TrustedTasksData.is_newer_version` from
`update_trusted_task_bundles.py`: `true` iff the integer tuple of
`candidate` is greater than that of `current`; malformed input yields
`false`. -/
def is_newer_version (current candidate : Str) : Bool :=
  match parseVersion current, parseVersion candidate with
  | some currentParts, some candidateParts => pyListGt candidateParts currentParts
  | _, _ => false

/-- The strict "tuple a is less than tuple b" order of Python tuples of
ints, as an inductive specification independent of the Boolean test in
the code. -/
inductive TupleLt : List Nat → List Nat → Prop
  | nil (y : Nat) (ys : List Nat) : TupleLt [] (y :: ys)
  | head {x y : Nat} (xs ys : List Nat) : x < y → TupleLt (x :: xs) (y :: ys)
  | tail (x : Nat) {xs ys : List Nat} : TupleLt xs ys → TupleLt (x :: xs) (x :: ys)

/-- One record in a trusted-tasks entry: a Python dict with an optional
`ref` string (read with a default of the empty string) and an
`expires_on` key whose presence alone is tested. -/
structure TrustedRecord where
  ref : Option Str
  expires_on : Bool
deriving DecidableEq, Repr

/-- The `trusted_tasks` mapping: task-key strings to record lists, as an
association list in dict insertion order. -/
abbrev Ledger := List (Str × List TrustedRecord)

/-- Reading `trusted_tasks` at a key, with the empty list as default. -/
def lookupRecords (L : Ledger) (k : Str) : List TrustedRecord :=
  match L.find? (fun kv => decide (kv.1 = k)) with
  | some kv => kv.2
  | none => []

/-- Characters accepted by the version-extraction regex class
(decimal digits and the dot). -/
def isVerChar (c : Char) : Bool := c.isDigit || c = '.'

/-- The version-suffix regex of `get_latest_trusted`: the longest
all-digits-and-dots suffix of the key, provided it is non-empty and
preceded by a colon; otherwise the empty string (the code uses the
empty string when there is no match). -/
def extractVersion (k : Str) : Str :=
  let rts := k.reverse.takeWhile isVerChar
  if rts ≠ [] ∧ (k.reverse.drop rts.length).head? = some ':' then rts.reverse
  else []

/-- The digest marker required of a trusted ref. -/
def shaMarker : Str := "sha256:".toList

/-- The first loop of `get_latest_trusted`: the first record without an
`expires_on` marker whose `ref` starts with the sha256 marker, if any. -/
def findCurrentTrusted : List TrustedRecord → Option Str
  | [] => none
  | r :: rs =>
    if r.expires_on = false then
      let ref := r.ref.getD []
      if shaMarker.isPrefixOf ref then some ref
      else findCurrentTrusted rs
    else findCurrentTrusted rs

/-- `TrustedTasksData.get_latest_trusted` from
`update_trusted_task_bundles.py`. -/
def get_latest_trusted (L : Ledger) (task_key : Str) : Option (Str × Str) :=
  let records := lookupRecords L task_key
  if records = [] then none
  else
    match findCurrentTrusted records with
    | some ref => some (extractVersion task_key, ref)
    | none =>
      match records with
      | [] => none
      | r0 :: _ =>
        let ref := r0.ref.getD []
        if shaMarker.isPrefixOf ref then some (extractVersion task_key, ref)
        else none

/-- The first element of a stable descending sort by `pyListGt` on the
first component: the earliest element whose key is maximal.  Models the
reverse stable sort by version tuple followed by taking the head. -/
def selectMax : List (List Nat × Str × Str) → Option (List Nat × Str × Str)
  | [] => none
  | x :: xs => some (xs.foldl (fun best c => if pyListGt c.1 best.1 then c else best) x)

/-- The candidate versions gathered by `find_latest_version`: ledger keys
sharing the `oci://registry/task_name:` prefix whose suffix parses as a
dot-separated integer tuple. -/
def versionCandidates (L : Ledger) (registry task_name : Str) :
    List (List Nat × Str × Str) :=
  let pre := "oci://".toList ++ registry ++ ['/'] ++ task_name ++ [':']
  L.filterMap (fun kv =>
    if pre.isPrefixOf kv.1 then
      (parseVersion (kv.1.drop pre.length)).map
        (fun parts => (parts, kv.1.drop pre.length, kv.1))
    else none)

/-- `TrustedTasksData.find_latest_version` from
`update_trusted_task_bundles.py`. -/
def find_latest_version (L : Ledger) (registry task_name : Str) :
    Option (Str × Str) :=
  match selectMax (versionCandidates L registry task_name) with
  | none => none
  | some (_, latest_version, latest_key) =>
    match get_latest_trusted L latest_key with
    | some (_, digest) => some (latest_version, digest)
    | none => none

/-- The `TaskUpdate` dataclass of `update_trusted_task_bundles.py`
(the `location` field, a display string, is omitted). -/
structure TaskUpdateU where
  task_name : Str
  current_version : Str
  current_digest : Str
  latest_version : Str
  latest_digest : Str
  registry : Str
  newer_version_available : Option Str
  newer_version_digest : Option Str
deriving DecidableEq, Repr

def TaskUpdateU.current_ref (u : TaskUpdateU) : Str :=
  u.registry ++ ['/'] ++ u.task_name ++ [':'] ++ u.current_version ++ ['@'] ++ u.current_digest

def TaskUpdateU.latest_ref (u : TaskUpdateU) : Str :=
  u.registry ++ ['/'] ++ u.task_name ++ [':'] ++ u.latest_version ++ ['@'] ++ u.latest_digest

def TaskUpdateU.needs_update (u : TaskUpdateU) : Bool :=
  decide (u.current_digest ≠ u.latest_digest)

def TaskUpdateU.is_version_bump (u : TaskUpdateU) : Bool :=
  decide (u.current_version ≠ u.latest_version)

/-- What `analyze_pipeline` does with one parsed bundle reference:
append a `TaskUpdate` to the updates, append one to the available
upgrades, or record nothing at all. -/
inductive RefOutcome
  | update (u : TaskUpdateU)
  | availableUpgrade (u : TaskUpdateU)
  | nothing
deriving DecidableEq, Repr

/-- The per-bundle-reference body of `analyze_pipeline`
(`update_trusted_task_bundles.py`, the loop over the found bundle
references), after the reference has been parsed into registry, task
name, version and digest. -/
def analyzeRef (L : Ledger) (upgrade_versions : Bool)
    (registry task_name current_version current_digest : Str) : RefOutcome :=
  let task_key := "oci://".toList ++ registry ++ ['/'] ++ task_name ++ [':'] ++ current_version
  let version_result := get_latest_trusted L task_key
  let latest_version_result := find_latest_version L registry task_name
  let newer : Option (Str × Str) :=
    match latest_version_result with
    | some (lv, ld) =>
      if is_newer_version current_version lv then some (lv, ld) else none
    | none => none
  if upgrade_versions ∧ newer.isSome then
    match newer with
    | some (nva, nvd) =>
      RefOutcome.update
        { task_name := task_name, current_version := current_version,
          current_digest := current_digest, latest_version := nva,
          latest_digest := nvd, registry := registry,
          newer_version_available := none, newer_version_digest := none }
    | none => RefOutcome.nothing
  else
    match version_result with
    | some (latest_version, latest_digest) =>
      let u : TaskUpdateU :=
        { task_name := task_name, current_version := current_version,
          current_digest := current_digest, latest_version := latest_version,
          latest_digest := latest_digest, registry := registry,
          newer_version_available := newer.map Prod.fst,
          newer_version_digest := newer.map Prod.snd }
      if u.needs_update then RefOutcome.update u
      else if newer.isSome then RefOutcome.availableUpgrade u
      else RefOutcome.nothing
    | none =>
      match newer with
      | some (nva, nvd) =>
        RefOutcome.availableUpgrade
          { task_name := task_name, current_version := current_version,
            current_digest := current_digest, latest_version := current_version,
            latest_digest := current_digest, registry := registry,
            newer_version_available := some nva, newer_version_digest := some nvd }
      | none => RefOutcome.nothing

/-! ## The resolution core of `konflux_task_version_lookup.py` -/

/-- The `version_source` values set by `KonfluxTaskLookup.process_task`. -/
inductive VersionSource
  | untrusted_required
  | ec_recommended
  | digest_match
  | highest_available
deriving DecidableEq, Repr

/-- The fields of a task dict read by `process_task`. -/
structure TaskIn where
  task_name : Str
  current_version : Str
  recommended_version : Option Str
  is_untrusted : Bool
  latest_digest : Str
deriving DecidableEq, Repr

/-- The fields of a task dict written by `process_task`. -/
structure TaskOut where
  latest_version : Str
  latest_digest : Str
  version_source : Option VersionSource
  warning : Option Str
  error : Option Str
  is_version_bump : Bool
deriving DecidableEq, Repr

/-- The digest-to-tag dict comprehension of `process_task` followed by a
lookup: a falsy (empty) digest is skipped and a later pair with the same
digest overwrites an earlier one. -/
def digestToVersion (results : List (Str × Str)) (d : Str) : Option Str :=
  ((results.filter (fun p => decide (p.2 ≠ []))).reverse.find?
      (fun p => decide (p.2 = d))).map (fun p => p.1)

/-- The tag-to-digest dict comprehension of `process_task` followed by a
lookup. -/
def versionToDigest (results : List (Str × Str)) (v : Str) : Option Str :=
  ((results.filter (fun p => decide (p.2 ≠ []))).reverse.find?
      (fun p => decide (p.1 = v))).map (fun p => p.2)

/-- Python truthiness of the optional `recommended_version` string:
`None` and the empty string are both falsy. -/
def recTruthy : Option Str → Option Str
  | some r => if r = [] then none else some r
  | none => none

/-- The pure resolution core of `KonfluxTaskLookup.process_task`: given
the input fields of the task, the sorted semver `tags` returned by
`list_tags`, and the `(tag, digest)` pairs returned by the per-tag
manifest lookups (an empty digest marks a failed lookup), compute the
fields the function writes back onto the task. -/
def processTask (task : TaskIn) (tags : List Str)
    (results : List (Str × Str)) : TaskOut :=
  if tags = [] then
    { latest_version := task.current_version, latest_digest := task.latest_digest,
      version_source := none, warning := none,
      error := some "No semver tags found".toList, is_version_bump := false }
  else
    let highest_version := tags.getLastD []
    let digest_matched_version := digestToVersion results task.latest_digest
    let out : TaskOut :=
      if task.is_untrusted then
        match digest_matched_version with
        | some required_version =>
          { latest_version := required_version, latest_digest := task.latest_digest,
            version_source := some VersionSource.untrusted_required,
            warning := none, error := none, is_version_bump := false }
        | none =>
          { latest_version := highest_version,
            latest_digest := (versionToDigest results highest_version).getD task.latest_digest,
            version_source := some VersionSource.highest_available,
            warning := some ("Required digest not in semver tags, using highest available ".toList
              ++ highest_version),
            error := none, is_version_bump := false }
      else
        match recTruthy task.recommended_version with
        | some rec =>
          if rec ∈ tags then
            { latest_version := rec,
              latest_digest := (versionToDigest results rec).getD task.latest_digest,
              version_source := some VersionSource.ec_recommended,
              warning := none, error := none, is_version_bump := false }
          else
            { latest_version := highest_version,
              latest_digest := (versionToDigest results highest_version).getD task.latest_digest,
              version_source := some VersionSource.highest_available,
              warning := some ("EC recommended version ".toList ++ rec
                ++ " not found, using ".toList ++ highest_version),
              error := none, is_version_bump := false }
        | none =>
          match digest_matched_version with
          | some v =>
            { latest_version := v, latest_digest := task.latest_digest,
              version_source := some VersionSource.digest_match,
              warning := none, error := none, is_version_bump := false }
          | none =>
            { latest_version := highest_version,
              latest_digest := (versionToDigest results highest_version).getD task.latest_digest,
              version_source := some VersionSource.highest_available,
              warning := some ("Latest digest not in semver tags, using highest available ".toList
                ++ highest_version),
              error := none, is_version_bump := false }
    { out with is_version_bump := decide (out.latest_version ≠ task.current_version) }

/-! ## Textual substitution (`update_pipeline_content`) -/

/-- Python `str.replace(old, new)`: leftmost, non-overlapping
replacement of every occurrence.  (The code replaces all occurrences;
the claims below consider content with exactly one.) -/
def replaceAll (old new : Str) : Str → Str
  | [] => []
  | c :: rest =>
    if h : old ≠ [] ∧ old.isPrefixOf (c :: rest) then
      new ++ replaceAll old new ((c :: rest).drop old.length)
    else c :: replaceAll old new rest
termination_by s => s.length
decreasing_by
  · simp only [List.length_drop, List.length_cons]
    have h1 : old.length ≠ 0 := by
      intro h0
      exact h.1 (List.eq_nil_of_length_eq_zero h0)
    omega
  · simp

/-- `update_pipeline_content` from `update_trusted_task_bundles.py`:
fold the replacement of each current reference by its latest reference
over the file content. -/
def update_pipeline_content (content : Str) (updates : List TaskUpdateU) : Str :=
  updates.foldl (fun result u => replaceAll u.current_ref u.latest_ref result) content

/-- The number of positions at which `old` occurs in `s`. -/
def occCount (s old : Str) : Nat :=
  (List.range (s.length + 1)).countP (fun i => old.isPrefixOf (s.drop i))

/-- Splitting file content into lines (Python `str.splitlines` for
newline-terminated text, as used by the line-based claims). -/
def splitLines : Str → List Str := splitOnChar '\n'

/-- The amended contract of `get_latest_trusted`, written from the
amended claim C2: the first record without an expiry marker whose ref
starts with the sha256 marker; if there is none, the first record in
list order provided its ref starts with the marker; an absent task key
(or an empty record list) yields absent. -/
def getLatestTrustedAmended (L : Ledger) (task_key : Str) : Option (Str × Str) :=
  let records := lookupRecords L task_key
  match records.find? (fun r => !r.expires_on && shaMarker.isPrefixOf (r.ref.getD [])) with
  | some r => some (extractVersion task_key, r.ref.getD [])
  | none =>
    match records with
    | [] => none
    | r0 :: _ =>
      if shaMarker.isPrefixOf (r0.ref.getD []) then
        some (extractVersion task_key, r0.ref.getD [])
      else none

/-! ## Helper lemmas -/

theorem pyListGt_cons_cons (a b : Nat) (as' bs : List Nat) :
    pyListGt (a :: as') (b :: bs) = true ↔
      b < a ∨ (a = b ∧ pyListGt as' bs = true) := by
  simp only [pyListGt]
  split_ifs with h1 h2
  · simp; omega
  · simp; omega
  · have : a = b := by omega
    subst this
    simp

theorem pyListGt_iff_TupleLt (a b : List Nat) :
    pyListGt b a = true ↔ TupleLt a b := by
  induction a generalizing b with
  | nil =>
    cases b with
    | nil => simp [pyListGt]; intro h; cases h
    | cons y ys =>
      simp [pyListGt]
      exact TupleLt.nil y ys
  | cons x xs ih =>
    cases b with
    | nil =>
      simp [pyListGt]
      intro h; cases h
    | cons y ys =>
      rw [pyListGt_cons_cons]
      constructor
      · rintro (h | ⟨h, h'⟩)
        · exact TupleLt.head xs ys h
        · subst h
          exact TupleLt.tail _ ((ih ys).mp h')
      · intro h
        cases h with
        | head _ _ h' => exact Or.inl h'
        | tail _ h' => exact Or.inr ⟨rfl, (ih ys).mpr h'⟩

theorem pyListGt_trans {a b c : List Nat} :
    pyListGt a b = true → pyListGt b c = true → pyListGt a c = true := by
  induction a generalizing b c with
  | nil => intro h; simp [pyListGt] at h
  | cons x xs ih =>
    intro hab hbc
    cases b with
    | nil => simp [pyListGt] at hbc
    | cons y ys =>
      cases c with
      | nil => simp [pyListGt]
      | cons z zs =>
        rw [pyListGt_cons_cons] at hab hbc ⊢
        rcases hab with h1 | ⟨h1, h1'⟩ <;> rcases hbc with h2 | ⟨h2, h2'⟩
        · left; omega
        · left; omega
        · left; omega
        · right; exact ⟨by omega, ih h1' h2'⟩

theorem findCurrentTrusted_eq_find? (records : List TrustedRecord) :
    findCurrentTrusted records =
      (records.find?
          (fun r => !r.expires_on && shaMarker.isPrefixOf (r.ref.getD []))).map
        (fun r => r.ref.getD []) := by
  induction records with
  | nil => rfl
  | cons r rs ih =>
    by_cases he : r.expires_on <;>
      by_cases hp : shaMarker.isPrefixOf (r.ref.getD []) <;>
        simp [findCurrentTrusted, List.find?_cons, he, hp, ih]

theorem get_latest_trusted_marker {L : Ledger} {k v d : Str}
    (h : get_latest_trusted L k = some (v, d)) :
    shaMarker.isPrefixOf d = true := by
  unfold get_latest_trusted at h
  by_cases hrec : lookupRecords L k = []
  · simp [hrec] at h
  · rw [if_neg hrec, findCurrentTrusted_eq_find?] at h
    cases hf : (lookupRecords L k).find?
        (fun r => !r.expires_on && shaMarker.isPrefixOf (r.ref.getD [])) with
    | some r =>
      rw [hf] at h
      simp only [Option.map_some'] at h
      have hpr := List.find?_some hf
      simp only [Bool.and_eq_true] at hpr
      cases h
      exact hpr.2
    | none =>
      rw [hf] at h
      simp only [Option.map_none'] at h
      cases hr : lookupRecords L k with
      | nil => exact absurd hr hrec
      | cons r0 rs =>
        rw [hr] at h
        by_cases hp : shaMarker.isPrefixOf (r0.ref.getD [])
        · simp only [hp, if_true] at h
          cases h
          exact hp
        · simp [hp] at h

theorem pyListGt_irrefl (a : List Nat) : pyListGt a a = false := by
  induction a with
  | nil => rfl
  | cons x xs ih => simp [pyListGt, ih]

theorem pyListGt_total {a b : List Nat}
    (hab : pyListGt a b = false) (hba : pyListGt b a = false) : a = b := by
  induction a generalizing b with
  | nil =>
    cases b with
    | nil => rfl
    | cons y ys => simp [pyListGt] at hba
  | cons x xs ih =>
    cases b with
    | nil => simp [pyListGt] at hab
    | cons y ys =>
      rw [← Bool.not_eq_true, pyListGt_cons_cons] at hab hba
      push_neg at hab hba
      have hxy : x = y := le_antisymm hab.1 hba.1
      subst hxy
      have h1 : pyListGt xs ys = false := by
        have := hab.2 rfl
        simpa using this
      have h2 : pyListGt ys xs = false := by
        have := hba.2 rfl
        simpa using this
      rw [ih h1 h2]

/-- The fold inside `selectMax` returns an element of the input that no
element strictly beats: the head of the stable descending sort. -/
theorem selectFold_spec (xs : List (List Nat × Str × Str)) (x : List Nat × Str × Str) :
    (xs.foldl (fun best c => if pyListGt c.1 best.1 then c else best) x) ∈ x :: xs ∧
      ∀ c ∈ x :: xs,
        pyListGt c.1
          (xs.foldl (fun best c => if pyListGt c.1 best.1 then c else best) x).1 = false := by
  induction xs generalizing x with
  | nil =>
    refine ⟨by simp, ?_⟩
    intro c hc
    simp only [List.foldl_nil]
    simp only [List.mem_singleton] at hc
    rw [hc]
    exact pyListGt_irrefl _
  | cons y ys ih =>
    simp only [List.foldl_cons]
    by_cases hg : pyListGt y.1 x.1 = true
    · rw [if_pos hg]
      obtain ⟨hmem, hmax⟩ := ih y
      refine ⟨?_, ?_⟩
      · rcases List.mem_cons.mp hmem with h | h
        · rw [h]; simp
        · simp [h]
      · intro c hc
        rcases List.mem_cons.mp hc with hcx | hc'
        · -- c is the initial x, which y strictly beats
          rw [hcx]
          have hy := hmax y (List.mem_cons_self _ _)
          by_contra hcr
          rw [Bool.not_eq_false] at hcr
          have htr := pyListGt_trans hg hcr
          simp [htr] at hy
        · exact hmax c hc'
    · rw [if_neg hg]
      obtain ⟨hmem, hmax⟩ := ih x
      refine ⟨?_, ?_⟩
      · rcases List.mem_cons.mp hmem with h | h
        · rw [h]; simp
        · simp [h]
      · intro c hc
        rcases List.mem_cons.mp hc with hcx | hc'
        · rw [hcx]
          exact hmax x (List.mem_cons_self _ _)
        · rcases List.mem_cons.mp hc' with hcy | hcm
          · -- c is y, which did not strictly beat x
            rw [hcy]
            have hx := hmax x (List.mem_cons_self _ _)
            by_contra hcr
            rw [Bool.not_eq_false] at hcr
            rw [Bool.not_eq_true] at hg
            by_cases hxy : pyListGt x.1 y.1 = true
            · have htr := pyListGt_trans hxy hcr
              simp [htr] at hx
            · rw [Bool.not_eq_true] at hxy
              have heq := pyListGt_total hg hxy
              rw [heq] at hcr
              simp [hcr] at hx
          · exact hmax c (List.mem_cons_of_mem _ hcm)

theorem selectMax_spec {l : List (List Nat × Str × Str)} {m : List Nat × Str × Str}
    (h : selectMax l = some m) :
    m ∈ l ∧ ∀ c ∈ l, pyListGt c.1 m.1 = false := by
  cases l with
  | nil => simp [selectMax] at h
  | cons x xs =>
    simp only [selectMax, Option.some.injEq] at h
    obtain ⟨hmem, hmax⟩ := selectFold_spec xs x
    rw [h] at hmem hmax
    exact ⟨hmem, hmax⟩

theorem mem_versionCandidates {L : Ledger} {registry task_name : Str}
    {kv : Str × List TrustedRecord} {p : List Nat}
    (hkv : kv ∈ L)
    (hpre : ("oci://".toList ++ registry ++ ['/'] ++ task_name ++ [':']).isPrefixOf kv.1 = true)
    (hp : parseVersion
        (kv.1.drop ("oci://".toList ++ registry ++ ['/'] ++ task_name ++ [':']).length) = some p) :
    (p, kv.1.drop ("oci://".toList ++ registry ++ ['/'] ++ task_name ++ [':']).length, kv.1)
      ∈ versionCandidates L registry task_name := by
  unfold versionCandidates
  rw [List.mem_filterMap]
  refine ⟨kv, hkv, ?_⟩
  rw [if_pos hpre, hp]
  rfl

theorem versionCandidates_mem {L : Ledger} {registry task_name : Str}
    {c : List Nat × Str × Str}
    (hc : c ∈ versionCandidates L registry task_name) :
    ∃ kv ∈ L,
      ("oci://".toList ++ registry ++ ['/'] ++ task_name ++ [':']).isPrefixOf kv.1 = true ∧
      c.2.1 = kv.1.drop ("oci://".toList ++ registry ++ ['/'] ++ task_name ++ [':']).length ∧
      c.2.2 = kv.1 ∧
      parseVersion c.2.1 = some c.1 := by
  unfold versionCandidates at hc
  rw [List.mem_filterMap] at hc
  obtain ⟨kv, hkv, hf⟩ := hc
  by_cases hpre : ("oci://".toList ++ registry ++ ['/'] ++ task_name ++ [':']).isPrefixOf kv.1 = true
  · rw [if_pos hpre] at hf
    cases hpv : parseVersion
        (kv.1.drop ("oci://".toList ++ registry ++ ['/'] ++ task_name ++ [':']).length) with
    | none => rw [hpv] at hf; simp at hf
    | some parts =>
      rw [hpv] at hf
      simp only [Option.map_some', Option.some.injEq] at hf
      subst hf
      exact ⟨kv, hkv, hpre, rfl, rfl, hpv⟩
  · rw [if_neg hpre] at hf
    simp at hf

/-! ## Claims -/

/-- C4: for all version strings that are valid dot-separated integer
tuples, `is_newer_version` returns `true` exactly when the tuple of the
candidate is greater than the tuple of the current version under
Python tuple comparison; when either string is malformed it returns
`false`. -/
theorem C4_is_newer_version_correct :
    (∀ a b ta tb, parseVersion a = some ta → parseVersion b = some tb →
       (is_newer_version a b = true ↔ TupleLt ta tb)) ∧
    (∀ a b, parseVersion a = none ∨ parseVersion b = none →
       is_newer_version a b = false) := by
  constructor
  · intro a b ta tb ha hb
    simp only [is_newer_version, ha, hb]
    exact pyListGt_iff_TupleLt ta tb
  · intro a b h
    rcases h with h | h
    · simp [is_newer_version, h]
    · cases hpa : parseVersion a <;> simp [is_newer_version, hpa, h]

/-- Witness for C4 at concrete inputs: 0.10 is newer than 0.9, and a
malformed version compares as not newer. -/
theorem C4_witness :
    (is_newer_version "0.9".toList "0.10".toList = true ↔ TupleLt [0, 9] [0, 10]) ∧
      is_newer_version "0.x".toList "0.1".toList = false := by
  constructor
  · exact C4_is_newer_version_correct.1 _ _ _ _ (by decide) (by decide)
  · exact C4_is_newer_version_correct.2 _ _ (Or.inl (by decide))

/-- C2 counterexample: a task key present in the ledger whose single
record has no expiry marker but a ref that does not start with the
sha256 marker.  The claim says `get_latest_trusted` returns that first
record; the code returns absent. -/
theorem C2_counterexample :
    lookupRecords
        [("oci://quay.io/ns/task-foo:0.1".toList,
          [{ ref := some "notadigest".toList, expires_on := false }])]
        "oci://quay.io/ns/task-foo:0.1".toList
      = [{ ref := some "notadigest".toList, expires_on := false }] ∧
    get_latest_trusted
        [("oci://quay.io/ns/task-foo:0.1".toList,
          [{ ref := some "notadigest".toList, expires_on := false }])]
        "oci://quay.io/ns/task-foo:0.1".toList
      = none := by
  constructor <;> decide

/-- C2 amended: for every ledger and task key, `get_latest_trusted`
returns the version and digest of the first record in list order that
has no expiry marker AND whose ref starts with the sha256 marker; if
there is no such record, it returns the first record in list order
provided its ref starts with the marker, and absent otherwise; an
absent task key yields absent. -/
theorem C2_get_latest_trusted_amended (L : Ledger) (k : Str) :
    get_latest_trusted L k = getLatestTrustedAmended L k := by
  unfold get_latest_trusted getLatestTrustedAmended
  cases hr : lookupRecords L k with
  | nil => simp [hr]
  | cons r0 rs =>
    simp only [hr, findCurrentTrusted_eq_find?, reduceCtorEq, if_false]
    cases hf : (r0 :: rs).find?
        (fun r => !r.expires_on && shaMarker.isPrefixOf (r.ref.getD [])) <;>
      simp [hf]

/-- C10: every digest returned by `get_latest_trusted` starts with the
sha256 marker; a record without the marker is skipped when searching for
the first non-expiring entry; and the function can return absent even
for a non-empty record list when no ref carries the marker. -/
theorem C10_digest_marker :
    (∀ (L : Ledger) (k v d : Str), get_latest_trusted L k = some (v, d) →
        shaMarker.isPrefixOf d = true) ∧
    get_latest_trusted
        [("oci://quay.io/ns/task-bar:0.2".toList,
          [{ ref := some "latest-tag".toList, expires_on := false },
           { ref := some "sha256:bbb".toList, expires_on := false }])]
        "oci://quay.io/ns/task-bar:0.2".toList
      = some ("0.2".toList, "sha256:bbb".toList) ∧
    (lookupRecords
        [("oci://quay.io/ns/task-baz:0.3".toList,
          [{ ref := some "oops".toList, expires_on := true }])]
        "oci://quay.io/ns/task-baz:0.3".toList ≠ [] ∧
     get_latest_trusted
        [("oci://quay.io/ns/task-baz:0.3".toList,
          [{ ref := some "oops".toList, expires_on := true }])]
        "oci://quay.io/ns/task-baz:0.3".toList = none) := by
  refine ⟨?_, by decide, by decide, by decide⟩
  intro L k v d h
  exact get_latest_trusted_marker h

/-- Witness for C10 at a concrete ledger: the returned digest indeed
starts with the sha256 marker. -/
theorem C10_witness :
    shaMarker.isPrefixOf "sha256:aaa".toList = true :=
  C10_digest_marker.1
    [("oci://quay.io/ns/task-foo:0.1".toList,
      [{ ref := some "sha256:aaa".toList, expires_on := false }])]
    "oci://quay.io/ns/task-foo:0.1".toList
    "0.1".toList "sha256:aaa".toList (by decide)

/-- C3: when `find_latest_version` returns a version, that version
parses as an integer tuple which is maximal (under Python tuple
comparison) among all parseable version suffixes of ledger keys sharing
the task prefix; in particular with both 0.1 and 0.10 present it
selects 0.10. -/
theorem C3_find_latest_version_max :
    (∀ (L : Ledger) (registry task_name v d : Str),
        find_latest_version L registry task_name = some (v, d) →
        ∃ parts, parseVersion v = some parts ∧
          ∀ kv ∈ L, ∀ p : List Nat,
            ("oci://".toList ++ registry ++ ['/'] ++ task_name ++ [':']).isPrefixOf kv.1 = true →
            parseVersion (kv.1.drop
              ("oci://".toList ++ registry ++ ['/'] ++ task_name ++ [':']).length) = some p →
            pyListGt p parts = false) ∧
    find_latest_version
        [("oci://quay.io/ns/task-foo:0.1".toList,
          [{ ref := some "sha256:aaa".toList, expires_on := false }]),
         ("oci://quay.io/ns/task-foo:0.10".toList,
          [{ ref := some "sha256:bbb".toList, expires_on := false }])]
        "quay.io/ns".toList "task-foo".toList
      = some ("0.10".toList, "sha256:bbb".toList) := by
  refine ⟨?_, by decide⟩
  intro L registry task_name v d h
  unfold find_latest_version at h
  cases hsel : selectMax (versionCandidates L registry task_name) with
  | none => rw [hsel] at h; simp at h
  | some m =>
    rw [hsel] at h
    obtain ⟨hm, hmax⟩ := selectMax_spec hsel
    obtain ⟨kv, hkv, hpre, he1, he2, hpv⟩ := versionCandidates_mem hm
    obtain ⟨mp, mv, mk⟩ := m
    dsimp only at h
    cases hg : get_latest_trusted L mk with
    | none => rw [hg] at h; simp at h
    | some pr =>
      obtain ⟨pv, pd⟩ := pr
      rw [hg] at h
      simp only [Option.some.injEq, Prod.mk.injEq] at h
      obtain ⟨hv, hd⟩ := h
      refine ⟨mp, ?_, ?_⟩
      · rw [← hv]; exact hpv
      · intro kv' hkv' p hpre' hp'
        exact hmax _ (mem_versionCandidates hkv' hpre' hp')

/-- Witness for C3 at the 0.1 / 0.10 ledger: the returned version 0.10
parses and its tuple is maximal. -/
theorem C3_witness :
    ∃ parts, parseVersion "0.10".toList = some parts ∧
      ∀ kv ∈ ([("oci://quay.io/ns/task-foo:0.1".toList,
                 [{ ref := some "sha256:aaa".toList, expires_on := false }]),
                ("oci://quay.io/ns/task-foo:0.10".toList,
                 [{ ref := some "sha256:bbb".toList, expires_on := false }])] : Ledger),
        ∀ p : List Nat,
          ("oci://".toList ++ "quay.io/ns".toList ++ ['/'] ++ "task-foo".toList
              ++ [':']).isPrefixOf kv.1 = true →
          parseVersion (kv.1.drop
            ("oci://".toList ++ "quay.io/ns".toList ++ ['/'] ++ "task-foo".toList
              ++ [':']).length) = some p →
          pyListGt p parts = false :=
  C3_find_latest_version_max.1
    [("oci://quay.io/ns/task-foo:0.1".toList,
      [{ ref := some "sha256:aaa".toList, expires_on := false }]),
     ("oci://quay.io/ns/task-foo:0.10".toList,
      [{ ref := some "sha256:bbb".toList, expires_on := false }])]
    "quay.io/ns".toList "task-foo".toList
    "0.10".toList "sha256:bbb".toList (by decide)

/-- C6 counterexample: ledger containing only task-foo 0.1 with digest
sha256:aaa, bundle reference at version 0.9 (absent from the ledger),
upgrades disabled.  The claim says resolution returns an update to
version 0.1 / sha256:aaa with a highest-available marker and a warning;
the code emits nothing at all for this input. -/
theorem C6_counterexample :
    analyzeRef
        [("oci://quay.io/ns/task-foo:0.1".toList,
          [{ ref := some "sha256:aaa".toList, expires_on := false }])]
        false "quay.io/ns".toList "task-foo".toList "0.9".toList "sha256:bbb".toList
      = RefOutcome.nothing ∧
    ¬ ∃ u : TaskUpdateU,
        analyzeRef
            [("oci://quay.io/ns/task-foo:0.1".toList,
              [{ ref := some "sha256:aaa".toList, expires_on := false }])]
            false "quay.io/ns".toList "task-foo".toList "0.9".toList "sha256:bbb".toList
          = RefOutcome.update u := by
  refine ⟨by decide, ?_⟩
  rintro ⟨u, hu⟩
  rw [show analyzeRef
        [("oci://quay.io/ns/task-foo:0.1".toList,
          [{ ref := some "sha256:aaa".toList, expires_on := false }])]
        false "quay.io/ns".toList "task-foo".toList "0.9".toList "sha256:bbb".toList
      = RefOutcome.nothing from by decide] at hu
  cases hu

/-- C6 amended: at this input the code produces no update and no
warning: version 0.9 is absent from the ledger, the highest available
version 0.1 is not newer than 0.9, so the bundle reference is left
untouched (no fallback adoption of 0.1 occurs). -/
theorem C6_amended_no_resolution :
    get_latest_trusted
        [("oci://quay.io/ns/task-foo:0.1".toList,
          [{ ref := some "sha256:aaa".toList, expires_on := false }])]
        "oci://quay.io/ns/task-foo:0.9".toList = none ∧
    find_latest_version
        [("oci://quay.io/ns/task-foo:0.1".toList,
          [{ ref := some "sha256:aaa".toList, expires_on := false }])]
        "quay.io/ns".toList "task-foo".toList
      = some ("0.1".toList, "sha256:aaa".toList) ∧
    is_newer_version "0.9".toList "0.1".toList = false ∧
    analyzeRef
        [("oci://quay.io/ns/task-foo:0.1".toList,
          [{ ref := some "sha256:aaa".toList, expires_on := false }])]
        false "quay.io/ns".toList "task-foo".toList "0.9".toList "sha256:bbb".toList
      = RefOutcome.nothing := by
  refine ⟨by decide, by decide, by decide, by decide⟩

/-- C5 counterexample: with an empty ledger, a bundle reference receives
no resolution at all from the pipeline analyzer (no `TaskUpdate` is
produced), and with no semver tags the lookup resolver records an error
and keeps the current version, with no fallback and no warning. -/
theorem C5_counterexample :
    analyzeRef [] false "quay.io/konflux-ci/tekton-catalog".toList "task-init".toList
        "0.1".toList "sha256:abc".toList = RefOutcome.nothing ∧
    processTask
        { task_name := "init".toList, current_version := "0.1".toList,
          recommended_version := none, is_untrusted := false,
          latest_digest := "sha256:abc".toList } [] []
      = { latest_version := "0.1".toList, latest_digest := "sha256:abc".toList,
          version_source := none, warning := none,
          error := some "No semver tags found".toList, is_version_bump := false } := by
  constructor <;> decide

/-- C5 amended: in the version-lookup resolver, whenever at least one
semver tag is known, every task receives a concrete resolution: a
version source is always set, no error is recorded, and a warning is
attached exactly when resolution falls back to the highest available
tag (in which case the resolved version is that highest tag).  With no
known tags an error is recorded instead, and the pipeline analyzer can
emit no resolution at all (see the counterexample). -/
theorem C5_resolution_total_amended (task : TaskIn) (tags : List Str)
    (results : List (Str × Str)) (h : tags ≠ []) :
    ((processTask task tags results).version_source).isSome = true ∧
    (processTask task tags results).error = none ∧
    ((processTask task tags results).warning.isSome = true ↔
      ((processTask task tags results).version_source
          = some VersionSource.highest_available ∧
        (processTask task tags results).latest_version = tags.getLastD [])) := by
  unfold processTask
  rw [if_neg h]
  by_cases hu : task.is_untrusted = true
  · simp only [hu, if_true]
    cases hd : digestToVersion results task.latest_digest <;> simp
  · simp only [hu, if_false]
    cases hr : recTruthy task.recommended_version with
    | some rec =>
      by_cases hm : rec ∈ tags
      · simp [hm]
      · simp [hm]
    | none =>
      cases hd : digestToVersion results task.latest_digest <;> simp

/-- Witness for the amended C5 at a concrete task. -/
theorem C5_witness :
    ((processTask
        { task_name := "init".toList, current_version := "0.1".toList,
          recommended_version := none, is_untrusted := false,
          latest_digest := "sha256:zzz".toList }
        ["0.1".toList] [("0.1".toList, "sha256:a".toList)]).version_source).isSome = true ∧
    (processTask
        { task_name := "init".toList, current_version := "0.1".toList,
          recommended_version := none, is_untrusted := false,
          latest_digest := "sha256:zzz".toList }
        ["0.1".toList] [("0.1".toList, "sha256:a".toList)]).error = none ∧
    ((processTask
        { task_name := "init".toList, current_version := "0.1".toList,
          recommended_version := none, is_untrusted := false,
          latest_digest := "sha256:zzz".toList }
        ["0.1".toList] [("0.1".toList, "sha256:a".toList)]).warning.isSome = true ↔
      ((processTask
          { task_name := "init".toList, current_version := "0.1".toList,
            recommended_version := none, is_untrusted := false,
            latest_digest := "sha256:zzz".toList }
          ["0.1".toList] [("0.1".toList, "sha256:a".toList)]).version_source
          = some VersionSource.highest_available ∧
        (processTask
          { task_name := "init".toList, current_version := "0.1".toList,
            recommended_version := none, is_untrusted := false,
            latest_digest := "sha256:zzz".toList }
          ["0.1".toList] [("0.1".toList, "sha256:a".toList)]).latest_version
          = ["0.1".toList].getLastD [])) :=
  C5_resolution_total_amended
    { task_name := "init".toList, current_version := "0.1".toList,
      recommended_version := none, is_untrusted := false,
      latest_digest := "sha256:zzz".toList }
    ["0.1".toList] [("0.1".toList, "sha256:a".toList)] (by decide)

/-- C1 counterexample: an untrusted task (its mandatory required digest
sha256:zzz matches no known version) that also carries an EC
recommended version 0.2 present among the tags.  The claim says the
output's version source is untrusted_required; the code produces
highest_available. -/
theorem C1_counterexample :
    ({ task_name := "clone".toList, current_version := "0.1".toList,
       recommended_version := some "0.2".toList, is_untrusted := true,
       latest_digest := "sha256:zzz".toList } : TaskIn).is_untrusted = true ∧
    recTruthy (some "0.2".toList) = some "0.2".toList ∧
    (processTask
        { task_name := "clone".toList, current_version := "0.1".toList,
          recommended_version := some "0.2".toList, is_untrusted := true,
          latest_digest := "sha256:zzz".toList }
        ["0.1".toList, "0.2".toList]
        [("0.1".toList, "sha256:a".toList),
         ("0.2".toList, "sha256:b".toList)]).version_source
      = some VersionSource.highest_available ∧
    some VersionSource.highest_available ≠ some VersionSource.untrusted_required := by
  refine ⟨rfl, by decide, by decide, by decide⟩

/-- C1 amended: for every untrusted task with at least one known tag,
resolution takes the untrusted branch and never the ec_recommended
branch: the version source is untrusted_required when the mandatory
required digest maps to a known version, and highest_available
otherwise. -/
theorem C1_untrusted_priority_amended (task : TaskIn) (tags : List Str)
    (results : List (Str × Str)) (h : tags ≠ []) (hu : task.is_untrusted = true) :
    ((processTask task tags results).version_source
        = some VersionSource.untrusted_required ∨
      (processTask task tags results).version_source
        = some VersionSource.highest_available) ∧
    (processTask task tags results).version_source
      ≠ some VersionSource.ec_recommended ∧
    (∀ rv, digestToVersion results task.latest_digest = some rv →
      (processTask task tags results).version_source
          = some VersionSource.untrusted_required ∧
        (processTask task tags results).latest_version = rv) := by
  unfold processTask
  rw [if_neg h]
  simp only [hu, if_true]
  cases hd : digestToVersion results task.latest_digest with
  | none => simp [hd]
  | some rv => simp [hd]

/-- Witness for the amended C1: an untrusted task whose required digest
maps to version 0.1. -/
theorem C1_witness :
    ((processTask
        { task_name := "clone".toList, current_version := "0.3".toList,
          recommended_version := some "0.2".toList, is_untrusted := true,
          latest_digest := "sha256:a".toList }
        ["0.1".toList, "0.2".toList]
        [("0.1".toList, "sha256:a".toList),
         ("0.2".toList, "sha256:b".toList)]).version_source
        = some VersionSource.untrusted_required ∨
      (processTask
        { task_name := "clone".toList, current_version := "0.3".toList,
          recommended_version := some "0.2".toList, is_untrusted := true,
          latest_digest := "sha256:a".toList }
        ["0.1".toList, "0.2".toList]
        [("0.1".toList, "sha256:a".toList),
         ("0.2".toList, "sha256:b".toList)]).version_source
        = some VersionSource.highest_available) ∧
    (processTask
        { task_name := "clone".toList, current_version := "0.3".toList,
          recommended_version := some "0.2".toList, is_untrusted := true,
          latest_digest := "sha256:a".toList }
        ["0.1".toList, "0.2".toList]
        [("0.1".toList, "sha256:a".toList),
         ("0.2".toList, "sha256:b".toList)]).version_source
      ≠ some VersionSource.ec_recommended ∧
    (∀ rv, digestToVersion
        [("0.1".toList, "sha256:a".toList),
         ("0.2".toList, "sha256:b".toList)] "sha256:a".toList = some rv →
      (processTask
          { task_name := "clone".toList, current_version := "0.3".toList,
            recommended_version := some "0.2".toList, is_untrusted := true,
            latest_digest := "sha256:a".toList }
          ["0.1".toList, "0.2".toList]
          [("0.1".toList, "sha256:a".toList),
           ("0.2".toList, "sha256:b".toList)]).version_source
          = some VersionSource.untrusted_required ∧
        (processTask
          { task_name := "clone".toList, current_version := "0.3".toList,
            recommended_version := some "0.2".toList, is_untrusted := true,
            latest_digest := "sha256:a".toList }
          ["0.1".toList, "0.2".toList]
          [("0.1".toList, "sha256:a".toList),
           ("0.2".toList, "sha256:b".toList)]).latest_version = rv) :=
  C1_untrusted_priority_amended
    { task_name := "clone".toList, current_version := "0.3".toList,
      recommended_version := some "0.2".toList, is_untrusted := true,
      latest_digest := "sha256:a".toList }
    ["0.1".toList, "0.2".toList]
    [("0.1".toList, "sha256:a".toList), ("0.2".toList, "sha256:b".toList)]
    (by decide) rfl

/-- C7 counterexample: an untrusted task whose required digest matches
no known version, with an empty tag list.  The claim says resolution
sets highest_available with a warning; the code records an error, keeps
the current version, and sets neither a version source nor a warning. -/
theorem C7_counterexample :
    ({ task_name := "clone".toList, current_version := "0.3".toList,
       recommended_version := none, is_untrusted := true,
       latest_digest := "sha256:q".toList } : TaskIn).is_untrusted = true ∧
    digestToVersion ([] : List (Str × Str)) "sha256:q".toList = none ∧
    (processTask
        { task_name := "clone".toList, current_version := "0.3".toList,
          recommended_version := none, is_untrusted := true,
          latest_digest := "sha256:q".toList } [] []).version_source = none ∧
    (processTask
        { task_name := "clone".toList, current_version := "0.3".toList,
          recommended_version := none, is_untrusted := true,
          latest_digest := "sha256:q".toList } [] []).warning = none ∧
    (processTask
        { task_name := "clone".toList, current_version := "0.3".toList,
          recommended_version := none, is_untrusted := true,
          latest_digest := "sha256:q".toList } [] []).error
      = some "No semver tags found".toList := by
  refine ⟨rfl, by decide, by decide, by decide, by decide⟩

/-- C7 amended: for every untrusted task with at least one known tag
whose mandatory required digest maps to no known version, resolution
falls back to the highest available tag with version source
highest_available and a warning attached; the target digest becomes
that version's digest when that digest is known, and is left unchanged
otherwise. -/
theorem C7_untrusted_fallback_amended (task : TaskIn) (tags : List Str)
    (results : List (Str × Str)) (h : tags ≠ []) (hu : task.is_untrusted = true)
    (hd : digestToVersion results task.latest_digest = none) :
    (processTask task tags results).version_source
        = some VersionSource.highest_available ∧
    (processTask task tags results).latest_version = tags.getLastD [] ∧
    ((processTask task tags results).warning).isSome = true ∧
    (∀ dg, versionToDigest results (tags.getLastD []) = some dg →
      (processTask task tags results).latest_digest = dg) ∧
    (versionToDigest results (tags.getLastD []) = none →
      (processTask task tags results).latest_digest = task.latest_digest) := by
  unfold processTask
  rw [if_neg h]
  simp only [hu, if_true, hd]
  cases hv : versionToDigest results (tags.getLastD []) <;> simp [hv]

/-- Witness for the amended C7: required digest sha256:q unknown, one
tag 0.1 whose digest is known. -/
theorem C7_witness :
    (processTask
        { task_name := "clone".toList, current_version := "0.3".toList,
          recommended_version := none, is_untrusted := true,
          latest_digest := "sha256:q".toList }
        ["0.1".toList] [("0.1".toList, "sha256:a".toList)]).version_source
        = some VersionSource.highest_available ∧
    (processTask
        { task_name := "clone".toList, current_version := "0.3".toList,
          recommended_version := none, is_untrusted := true,
          latest_digest := "sha256:q".toList }
        ["0.1".toList] [("0.1".toList, "sha256:a".toList)]).latest_version
      = ["0.1".toList].getLastD [] ∧
    ((processTask
        { task_name := "clone".toList, current_version := "0.3".toList,
          recommended_version := none, is_untrusted := true,
          latest_digest := "sha256:q".toList }
        ["0.1".toList] [("0.1".toList, "sha256:a".toList)]).warning).isSome = true ∧
    (∀ dg, versionToDigest [("0.1".toList, "sha256:a".toList)]
        (["0.1".toList].getLastD []) = some dg →
      (processTask
          { task_name := "clone".toList, current_version := "0.3".toList,
            recommended_version := none, is_untrusted := true,
            latest_digest := "sha256:q".toList }
          ["0.1".toList] [("0.1".toList, "sha256:a".toList)]).latest_digest = dg) ∧
    (versionToDigest [("0.1".toList, "sha256:a".toList)]
        (["0.1".toList].getLastD []) = none →
      (processTask
          { task_name := "clone".toList, current_version := "0.3".toList,
            recommended_version := none, is_untrusted := true,
            latest_digest := "sha256:q".toList }
          ["0.1".toList] [("0.1".toList, "sha256:a".toList)]).latest_digest
        = "sha256:q".toList) :=
  C7_untrusted_fallback_amended
    { task_name := "clone".toList, current_version := "0.3".toList,
      recommended_version := none, is_untrusted := true,
      latest_digest := "sha256:q".toList }
    ["0.1".toList] [("0.1".toList, "sha256:a".toList)]
    (by decide) rfl (by decide)

/-- C8 counterexample: a task carrying an EC recommended version 0.5
that is absent from the tags, but flagged untrusted with a required
digest that maps to version 0.1.  The claim says version source is
highest_available; the code takes the untrusted branch and produces
untrusted_required. -/
theorem C8_counterexample :
    recTruthy (some "0.5".toList) = some "0.5".toList ∧
    "0.5".toList ∉ ["0.1".toList] ∧
    (processTask
        { task_name := "clone".toList, current_version := "0.1".toList,
          recommended_version := some "0.5".toList, is_untrusted := true,
          latest_digest := "sha256:a".toList }
        ["0.1".toList] [("0.1".toList, "sha256:a".toList)]).version_source
      = some VersionSource.untrusted_required ∧
    some VersionSource.untrusted_required ≠ some VersionSource.highest_available := by
  refine ⟨by decide, by decide, by decide, by decide⟩

/-- C8 amended: for every task that is not flagged untrusted, has at
least one known tag, and carries a truthy EC recommended version: when
that version is absent from the tags, resolution falls back to the
highest available tag (version source highest_available) with a warning,
updating the target digest to that version's digest when known; when it
is present, it is adopted (version source ec_recommended, overriding
any digest match), with the target digest updated to its digest when
known. -/
theorem C8_ec_recommended_amended (task : TaskIn) (tags : List Str)
    (results : List (Str × Str)) (rec : Str)
    (h : tags ≠ []) (hu : task.is_untrusted = false)
    (hr : recTruthy task.recommended_version = some rec) :
    (rec ∉ tags →
      (processTask task tags results).version_source
          = some VersionSource.highest_available ∧
      (processTask task tags results).latest_version = tags.getLastD [] ∧
      ((processTask task tags results).warning).isSome = true ∧
      ∀ dg, versionToDigest results (tags.getLastD []) = some dg →
        (processTask task tags results).latest_digest = dg) ∧
    (rec ∈ tags →
      (processTask task tags results).version_source
          = some VersionSource.ec_recommended ∧
      (processTask task tags results).latest_version = rec ∧
      ∀ dg, versionToDigest results rec = some dg →
        (processTask task tags results).latest_digest = dg) := by
  unfold processTask
  rw [if_neg h]
  simp only [hu, if_false, hr]
  by_cases hm : rec ∈ tags
  · simp only [hm, if_true]
    cases hv : versionToDigest results rec <;> simp [hm, hv]
  · simp only [hm, if_false]
    cases hv : versionToDigest results (tags.getLastD []) <;> simp [hm, hv]

/-- Witness for the amended C8: recommended version 0.5 absent from the
single tag 0.1, task not untrusted. -/
theorem C8_witness :
    ("0.5".toList ∉ ["0.1".toList] →
      (processTask
          { task_name := "clone".toList, current_version := "0.1".toList,
            recommended_version := some "0.5".toList, is_untrusted := false,
            latest_digest := "sha256:old".toList }
          ["0.1".toList] [("0.1".toList, "sha256:a".toList)]).version_source
          = some VersionSource.highest_available ∧
      (processTask
          { task_name := "clone".toList, current_version := "0.1".toList,
            recommended_version := some "0.5".toList, is_untrusted := false,
            latest_digest := "sha256:old".toList }
          ["0.1".toList] [("0.1".toList, "sha256:a".toList)]).latest_version
        = ["0.1".toList].getLastD [] ∧
      ((processTask
          { task_name := "clone".toList, current_version := "0.1".toList,
            recommended_version := some "0.5".toList, is_untrusted := false,
            latest_digest := "sha256:old".toList }
          ["0.1".toList] [("0.1".toList, "sha256:a".toList)]).warning).isSome = true ∧
      ∀ dg, versionToDigest [("0.1".toList, "sha256:a".toList)]
          (["0.1".toList].getLastD []) = some dg →
        (processTask
            { task_name := "clone".toList, current_version := "0.1".toList,
              recommended_version := some "0.5".toList, is_untrusted := false,
              latest_digest := "sha256:old".toList }
            ["0.1".toList] [("0.1".toList, "sha256:a".toList)]).latest_digest = dg) ∧
    ("0.5".toList ∈ ["0.1".toList] →
      (processTask
          { task_name := "clone".toList, current_version := "0.1".toList,
            recommended_version := some "0.5".toList, is_untrusted := false,
            latest_digest := "sha256:old".toList }
          ["0.1".toList] [("0.1".toList, "sha256:a".toList)]).version_source
          = some VersionSource.ec_recommended ∧
      (processTask
          { task_name := "clone".toList, current_version := "0.1".toList,
            recommended_version := some "0.5".toList, is_untrusted := false,
            latest_digest := "sha256:old".toList }
          ["0.1".toList] [("0.1".toList, "sha256:a".toList)]).latest_version
        = "0.5".toList ∧
      ∀ dg, versionToDigest [("0.1".toList, "sha256:a".toList)] "0.5".toList = some dg →
        (processTask
            { task_name := "clone".toList, current_version := "0.1".toList,
              recommended_version := some "0.5".toList, is_untrusted := false,
              latest_digest := "sha256:old".toList }
            ["0.1".toList] [("0.1".toList, "sha256:a".toList)]).latest_digest = dg) :=
  C8_ec_recommended_amended
    { task_name := "clone".toList, current_version := "0.1".toList,
      recommended_version := some "0.5".toList, is_untrusted := false,
      latest_digest := "sha256:old".toList }
    ["0.1".toList] [("0.1".toList, "sha256:a".toList)] "0.5".toList
    (by decide) rfl (by decide)

/-! ## Lemmas for the textual-substitution claim -/

theorem replaceAll_nil (old new : Str) : replaceAll old new [] = [] := by
  simp [replaceAll]

theorem replaceAll_cons (old new : Str) (c : Char) (rest : Str) :
    replaceAll old new (c :: rest) =
      if old ≠ [] ∧ old.isPrefixOf (c :: rest) then
        new ++ replaceAll old new ((c :: rest).drop old.length)
      else c :: replaceAll old new rest := by
  rw [replaceAll]
  exact dite_eq_ite

theorem occCount_cons (c : Char) (s old : Str) :
    occCount (c :: s) old
      = occCount s old + (if old.isPrefixOf (c :: s) = true then 1 else 0) := by
  unfold occCount
  rw [show (c :: s).length + 1 = (s.length + 1) + 1 from by simp]
  rw [List.range_succ_eq_map, List.countP_cons, List.countP_map]
  have hcong : (List.range (s.length + 1)).countP
        ((fun i => old.isPrefixOf ((c :: s).drop i)) ∘ Nat.succ)
      = (List.range (s.length + 1)).countP (fun i => old.isPrefixOf (s.drop i)) := by
    apply List.countP_congr
    intro i _
    simp [Function.comp, List.drop_succ_cons]
  rw [hcong]
  rfl

theorem two_le_countP {p : Nat → Bool} {l : List Nat} {i j : Nat}
    (hij : i ≠ j) (hi : i ∈ l) (hj : j ∈ l)
    (hpi : p i = true) (hpj : p j = true) :
    2 ≤ l.countP p := by
  have hif : i ∈ l.filter p := List.mem_filter.mpr ⟨hi, hpi⟩
  have hjf : j ∈ l.filter p := List.mem_filter.mpr ⟨hj, hpj⟩
  have hsub : ({i, j} : Finset Nat) ⊆ (l.filter p).toFinset := by
    intro a ha
    rw [Finset.mem_insert, Finset.mem_singleton] at ha
    rcases ha with rfl | rfl <;>
      simp only [List.mem_toFinset] <;> assumption
  calc 2 = ({i, j} : Finset Nat).card := (Finset.card_pair hij).symm
    _ ≤ (l.filter p).toFinset.card := Finset.card_le_card hsub
    _ ≤ (l.filter p).length := List.toFinset_card_le _
    _ = l.countP p := (List.countP_eq_length_filter _ _).symm

theorem occ_lt_length {old s : Str} {i : Nat} (hne : old ≠ [])
    (h : old.isPrefixOf (s.drop i) = true) : i < s.length := by
  by_contra hge
  push_neg at hge
  rw [List.drop_eq_nil_of_le hge] at h
  cases old with
  | nil => exact hne rfl
  | cons c cs => simp [List.isPrefixOf] at h

theorem occCount_append_self {old post : Str} (hne : old ≠ [])
    (h : occCount (old ++ post) old = 1) : occCount post old = 0 := by
  by_contra h0
  have hpos : 0 < occCount post old := Nat.pos_of_ne_zero h0
  unfold occCount at hpos
  rw [List.countP_pos_iff] at hpos
  obtain ⟨j, hjmem, hpj⟩ := hpos
  have hjlt : j < post.length := occ_lt_length hne hpj
  have h1 : old.isPrefixOf ((old ++ post).drop 0) = true := by
    rw [List.drop_zero, List.isPrefixOf_iff_prefix]
    exact List.prefix_append old post
  have h2 : old.isPrefixOf ((old ++ post).drop (old.length + j)) = true := by
    rw [← List.drop_drop, List.drop_left]
    exact hpj
  have hlen : 1 ≤ old.length := by
    cases old with
    | nil => exact absurd rfl hne
    | cons c cs => simp
  have htwo : 2 ≤ occCount (old ++ post) old := by
    apply two_le_countP (i := 0) (j := old.length + j) (by omega) _ _ h1 h2
    · exact List.mem_range.mpr (by omega)
    · exact List.mem_range.mpr (by simp; omega)
  omega

theorem replaceAll_of_occCount_zero {old : Str} (new : Str) {s : Str}
    (hne : old ≠ []) (h : occCount s old = 0) : replaceAll old new s = s := by
  induction s with
  | nil => exact replaceAll_nil old new
  | cons c rest ih =>
    rw [occCount_cons] at h
    have h2 : old.isPrefixOf (c :: rest) = false := by
      by_contra hp
      rw [Bool.not_eq_false] at hp
      rw [if_pos hp] at h
      omega
    rw [if_neg (by simp [h2])] at h
    rw [replaceAll_cons, if_neg (by simp [h2]), ih (by omega)]

theorem replaceAll_single {old : Str} (new : Str) (pre post : Str)
    (hne : old ≠ [])
    (h : occCount (pre ++ (old ++ post)) old = 1) :
    replaceAll old new (pre ++ (old ++ post)) = pre ++ (new ++ post) := by
  induction pre with
  | nil =>
    simp only [List.nil_append] at h ⊢
    obtain ⟨c, cs, rfl⟩ : ∃ c cs, old = c :: cs := by
      cases old with
      | nil => exact absurd rfl hne
      | cons c cs => exact ⟨c, cs, rfl⟩
    rw [show (c :: cs) ++ post = c :: (cs ++ post) from rfl, replaceAll_cons]
    have hp : (c :: cs).isPrefixOf (c :: (cs ++ post)) = true := by
      rw [List.isPrefixOf_iff_prefix]
      exact ⟨post, rfl⟩
    rw [if_pos ⟨hne, hp⟩]
    rw [show (c :: (cs ++ post)).drop (c :: cs).length = post from by
      rw [show c :: (cs ++ post) = (c :: cs) ++ post from rfl, List.drop_left]]
    rw [replaceAll_of_occCount_zero new hne (occCount_append_self hne h)]
  | cons a pre' ih =>
    rw [List.cons_append] at h ⊢
    rw [replaceAll_cons]
    have hnp : old.isPrefixOf (a :: (pre' ++ (old ++ post))) = false := by
      by_contra hp
      rw [Bool.not_eq_false] at hp
      have hlen : 1 ≤ old.length := by
        cases old with
        | nil => exact absurd rfl hne
        | cons c cs => simp
      have h2 : old.isPrefixOf
          ((a :: (pre' ++ (old ++ post))).drop (pre'.length + 1)) = true := by
        rw [List.drop_succ_cons, List.drop_left]
        rw [List.isPrefixOf_iff_prefix]
        exact List.prefix_append old post
      have htwo : 2 ≤ occCount (a :: (pre' ++ (old ++ post))) old := by
        apply two_le_countP (i := 0) (j := pre'.length + 1) (by omega) _ _ hp h2
        · exact List.mem_range.mpr (by omega)
        · exact List.mem_range.mpr (by simp; omega)
      omega
    rw [if_neg (by simp [hnp])]
    rw [occCount_cons, if_neg (by simp [hnp])] at h
    rw [ih (by omega)]
    rfl

theorem occCount_one_decomp {s old : Str} (hne : old ≠ [])
    (h : occCount s old = 1) : ∃ pre post, s = pre ++ (old ++ post) := by
  have hpos : 0 < occCount s old := by omega
  unfold occCount at hpos
  rw [List.countP_pos_iff] at hpos
  obtain ⟨i, hmem, hpi⟩ := hpos
  rw [List.isPrefixOf_iff_prefix] at hpi
  obtain ⟨t, ht⟩ := hpi
  refine ⟨s.take i, t, ?_⟩
  calc s = s.take i ++ s.drop i := (List.take_append_drop i s).symm
    _ = s.take i ++ (old ++ t) := by rw [ht]

theorem splitOnChar_ne_nil (sep : Char) (s : Str) : splitOnChar sep s ≠ [] := by
  induction s with
  | nil => simp [splitOnChar]
  | cons x xs ih =>
    rw [splitOnChar]
    by_cases hx : x = sep
    · simp [hx]
    · rw [if_neg hx]
      cases hsp : splitOnChar sep xs with
      | nil => exact absurd hsp ih
      | cons s ss => simp

theorem splitOnChar_no_sep {sep : Char} {a : Str} (h : sep ∉ a) :
    splitOnChar sep a = [a] := by
  induction a with
  | nil => rfl
  | cons x xs ih =>
    have hx : ¬ x = sep := fun he => h (he ▸ List.mem_cons_self x xs)
    have hxs : sep ∉ xs := fun hm => h (List.mem_cons_of_mem _ hm)
    rw [splitOnChar, if_neg hx, ih hxs]

theorem splitOnChar_append (sep : Char) (a b : Str) :
    ∃ A x, splitOnChar sep a = A ++ [x] ∧
      splitOnChar sep (a ++ b)
        = A ++ (splitOnChar sep b).modifyHead (fun l => x ++ l) := by
  induction a with
  | nil =>
    refine ⟨[], [], rfl, ?_⟩
    simp only [List.nil_append]
    cases hsp : splitOnChar sep b with
    | nil => exact absurd hsp (splitOnChar_ne_nil sep b)
    | cons s ss => simp
  | cons c a' ih =>
    obtain ⟨A, x, h1, h2⟩ := ih
    by_cases hc : c = sep
    · refine ⟨[] :: A, x, ?_, ?_⟩
      · rw [splitOnChar, if_pos hc, h1]; rfl
      · rw [List.cons_append, splitOnChar, if_pos hc, h2]; rfl
    · cases A with
      | nil =>
        refine ⟨[], c :: x, ?_, ?_⟩
        · rw [splitOnChar, if_neg hc, h1]
          rfl
        · rw [List.cons_append, splitOnChar, if_neg hc, h2]
          cases hsp : splitOnChar sep b with
          | nil => exact absurd hsp (splitOnChar_ne_nil sep b)
          | cons s ss => simp
      | cons A0 As =>
        refine ⟨(c :: A0) :: As, x, ?_, ?_⟩
        · rw [splitOnChar, if_neg hc, h1]
          rfl
        · rw [List.cons_append, splitOnChar, if_neg hc, h2]
          rfl

theorem current_ref_ne_nil (u : TaskUpdateU) : u.current_ref ≠ [] := by
  simp [TaskUpdateU.current_ref]

/-- C9: for file content containing exactly one occurrence of a task's
current bundle reference, applying the textual substitution of that
reference by the target reference (as `update_pipeline_content` does)
preserves the number of lines and leaves every line other than the one
containing the occurrence byte-identical, at unchanged positions.
Bundle references contain no newline — they are matched by a
single-line regex and assembled from newline-free fields — which the
two membership hypotheses record. -/
theorem C9_substitution_frame (content : Str) (u : TaskUpdateU)
    (hocc : occCount content u.current_ref = 1)
    (hold : ('\n' : Char) ∉ u.current_ref)
    (hnew : ('\n' : Char) ∉ u.latest_ref) :
    ∃ A l l' B, splitLines content = A ++ l :: B ∧
      splitLines (update_pipeline_content content [u]) = A ++ l' :: B := by
  have hne : u.current_ref ≠ [] := current_ref_ne_nil u
  obtain ⟨pre, post, hdec⟩ := occCount_one_decomp hne hocc
  subst hdec
  have hrepl : update_pipeline_content (pre ++ (u.current_ref ++ post)) [u]
      = pre ++ (u.latest_ref ++ post) := by
    show replaceAll u.current_ref u.latest_ref (pre ++ (u.current_ref ++ post))
        = pre ++ (u.latest_ref ++ post)
    exact replaceAll_single u.latest_ref pre post hne hocc
  rw [hrepl]
  obtain ⟨A, x, hA1, hA2⟩ := splitOnChar_append '\n' pre (u.current_ref ++ post)
  obtain ⟨A2, x2, hB1, hB2⟩ := splitOnChar_append '\n' pre (u.latest_ref ++ post)
  rw [hA1] at hB1
  obtain ⟨hAeq, hxeq⟩ := List.append_inj' hB1 rfl
  have hx2 : x2 = x := by injection hxeq.symm
  subst hAeq
  subst hx2
  obtain ⟨Ac, xc, hC1, hC2⟩ := splitOnChar_append '\n' u.current_ref post
  rw [splitOnChar_no_sep hold] at hC1
  obtain ⟨hAc, hxc⟩ :=
    List.append_inj' (show [] ++ [u.current_ref] = Ac ++ [xc] from hC1) rfl
  have hxc' : xc = u.current_ref := by injection hxc.symm
  subst hAc
  subst hxc'
  obtain ⟨Al, xl, hD1, hD2⟩ := splitOnChar_append '\n' u.latest_ref post
  rw [splitOnChar_no_sep hnew] at hD1
  obtain ⟨hAl, hxl⟩ :=
    List.append_inj' (show [] ++ [u.latest_ref] = Al ++ [xl] from hD1) rfl
  have hxl' : xl = u.latest_ref := by injection hxl.symm
  subst hAl
  subst hxl'
  cases hpost : splitOnChar '\n' post with
  | nil => exact absurd hpost (splitOnChar_ne_nil '\n' post)
  | cons hp tp =>
    refine ⟨A, x2 ++ (u.current_ref ++ hp), x2 ++ (u.latest_ref ++ hp), tp, ?_, ?_⟩
    · show splitOnChar '\n' (pre ++ (u.current_ref ++ post)) = _
      rw [hA2, hC2, hpost]
      simp
    · show splitOnChar '\n' (pre ++ (u.latest_ref ++ post)) = _
      rw [hB2, hD2, hpost]
      simp

/-- Witness for C9: a three-line file whose middle line holds the only
occurrence of the current bundle reference. -/
theorem C9_witness :
    ∃ A l l' B,
      splitLines
          ("x\nquay.io/konflux-ci/tekton-catalog/task-init:0.1@sha256:aaa\ny".toList)
        = A ++ l :: B ∧
      splitLines
          (update_pipeline_content
            ("x\nquay.io/konflux-ci/tekton-catalog/task-init:0.1@sha256:aaa\ny".toList)
            [{ task_name := "task-init".toList, current_version := "0.1".toList,
               current_digest := "sha256:aaa".toList, latest_version := "0.2".toList,
               latest_digest := "sha256:bbb".toList,
               registry := "quay.io/konflux-ci/tekton-catalog".toList,
               newer_version_available := none, newer_version_digest := none }])
        = A ++ l' :: B :=
  C9_substitution_frame
    ("x\nquay.io/konflux-ci/tekton-catalog/task-init:0.1@sha256:aaa\ny".toList)
    { task_name := "task-init".toList, current_version := "0.1".toList,
      current_digest := "sha256:aaa".toList, latest_version := "0.2".toList,
      latest_digest := "sha256:bbb".toList,
      registry := "quay.io/konflux-ci/tekton-catalog".toList,
      newer_version_available := none, newer_version_digest := none }
    (by decide) (by decide) (by decide)

end TrustedTasks
